import Mathlib

/-!
Shallow embedding of karupanerura/go-httpagent (package httpagent).

The embedding covers:
* Go `http.Header` (a map from canonicalized header keys to value slices),
  modelled as an association list with the map operations `Set`, `Add`,
  `Get` and raw map indexing, together with `textproto.CanonicalMIMEHeaderKey`;
* the hook-chain machinery shared by `request_hook.go` and `response_hook.go`
  (`Append` with nil-panic, no-op elision and chain flattening; fail-fast `Do`;
  `Len`; `Clone`);
* `RequestHeaderHook.Do`;
* `client.go` (`ContextWithClient`, `contextClient`);
* `Agent.Do` and `Agent.WithClient` from `agent.go`.

Go's in-place mutation is rendered by explicit state passing: a hook on a
message type `σ` with error type `ε` is a function `σ → σ × Option ε`
(the returned `σ` is the mutated message, the `Option ε` the Go error,
`none` standing for `nil`). A Go panic is rendered as `Except.error`.
Pointer aliasing (for `Clone` / `WithClient` independence) is rendered by a
small explicit store in which a chain or header pointer is an index.
-/

/-- A Go panic with its message. -/
structure GoPanic where
  msg : String
deriving DecidableEq, Repr

/-! ## Go canonical MIME header keys

`http.CanonicalHeaderKey` = `textproto.CanonicalMIMEHeaderKey`: if every
byte of the key is a valid header-field byte, uppercase the first letter
and every letter following a hyphen and lowercase the rest; otherwise
return the key unchanged. -/

/-- Go `validHeaderFieldByte`: the token characters permitted in a header
field name (RFC 7230 token). Bytes ≥ 128 are invalid; we treat a char with
code point ≥ 128 the same way (in Go such a rune contributes bytes ≥ 0x80,
each invalid). -/
def validHeaderFieldByte (c : Char) : Bool :=
  c.isAlphanum ||
    c == Char.ofNat 33 ||   -- !
    c == Char.ofNat 35 ||   -- #
    c == Char.ofNat 36 ||   -- $
    c == Char.ofNat 37 ||   -- %
    c == Char.ofNat 38 ||   -- &
    c == Char.ofNat 39 ||   -- apostrophe
    c == Char.ofNat 42 ||   -- *
    c == Char.ofNat 43 ||   -- +
    c == Char.ofNat 45 ||   -- hyphen
    c == Char.ofNat 46 ||   -- .
    c == Char.ofNat 94 ||   -- caret
    c == Char.ofNat 95 ||   -- underscore
    c == Char.ofNat 96 ||   -- grave accent
    c == Char.ofNat 124 ||  -- vertical bar
    c == Char.ofNat 126     -- tilde

/-- The case-mapping loop of Go `canonicalMIMEHeaderKey`: `upper` tells
whether the next letter must be uppercased (start of string or right after
a hyphen). -/
def canonicalChars (upper : Bool) : List Char → List Char
  | [] => []
  | c :: rest =>
      let c' :=
        if upper && c.isLower then Char.ofNat (c.toNat - 32)
        else if !upper && c.isUpper then Char.ofNat (c.toNat + 32)
        else c
      c' :: canonicalChars (c' == Char.ofNat 45) rest

/-- Go `textproto.CanonicalMIMEHeaderKey` (= `http.CanonicalHeaderKey`):
canonicalize the case when every byte is a valid header-field byte,
otherwise return the key unmodified. -/
def canonicalHeaderKey (s : String) : String :=
  if s.data.all validHeaderFieldByte then ⟨canonicalChars true s.data⟩ else s

/-! ## Go `http.Header` -/

/-- Go `http.Header`: a map from header keys to value slices. A Go map is
unordered; we carry the entries as an association list (the list order
models the map's iteration order, which Go leaves unspecified). -/
structure Header where
  entries : List (String × List String)
deriving DecidableEq, Repr

/-- Go map indexing `m[k]`: the first entry with exactly key `k`, if any. -/
def assocGet (k : String) : List (String × List String) → Option (List String)
  | [] => none
  | e :: rest => if e.fst = k then some e.snd else assocGet k rest

/-- Go map assignment `m[k] = vs`: replace the entry for exactly key `k`,
or add a fresh entry when `k` is absent. -/
def assocSet (k : String) (vs : List String) : List (String × List String) → List (String × List String)
  | [] => [(k, vs)]
  | e :: rest => if e.fst = k then (k, vs) :: rest else e :: assocSet k vs rest

/-- Go map indexing on a header. -/
def Header.index (h : Header) (k : String) : Option (List String) :=
  assocGet k h.entries

/-- Go `textproto.MIMEHeader.Set` (via `http.Header.Set`):
`h[CanonicalMIMEHeaderKey(key)] = []string{value}`. -/
def Header.Set (h : Header) (key value : String) : Header :=
  ⟨assocSet (canonicalHeaderKey key) [value] h.entries⟩

/-- Go `textproto.MIMEHeader.Add` (via `http.Header.Add`):
`key = CanonicalMIMEHeaderKey(key); h[key] = append(h[key], value)`. -/
def Header.Add (h : Header) (key value : String) : Header :=
  let ck := canonicalHeaderKey key
  ⟨assocSet ck ((assocGet ck h.entries).getD [] ++ [value]) h.entries⟩

/-- Go `textproto.MIMEHeader.Get` (via `http.Header.Get`): the first value
stored under the canonical key, or the empty string. -/
def Header.Get (h : Header) (key : String) : String :=
  match assocGet (canonicalHeaderKey key) h.entries with
  | some (v :: _) => v
  | _ => ""

/-- Keys of a header, in entry order (the range of the Go map). -/
def Header.keys (h : Header) : List String :=
  h.entries.map Prod.fst

/-- Pairwise-distinct key list (what a Go map guarantees). -/
def distinctKeys : List String → Bool
  | [] => true
  | k :: rest => (!(rest.any (fun k2 => k2 == k))) && distinctKeys rest

/-- A well-formed header in the sense of the spec's Header Set data model:
keys are pairwise distinct (a Go map cannot repeat a key) and already in
canonical form (as produced by the `Set`/`Add` API). -/
def Header.wf (h : Header) : Bool :=
  distinctKeys h.keys && h.entries.all (fun e => canonicalHeaderKey e.fst == e.fst)

/-! ## Hook chains (`request_hook.go` / `response_hook.go`)

`RequestHooks` and `ResponseHooks` are the same structure over their hook
element type; we define the chain once over an element type `α`. An
argument passed to Go `Append` is an interface value: possibly `nil`
(rendered `Option.none`), the designated no-op singleton, another chain
(a `*RequestHooks` / `*ResponseHooks`), or an ordinary hook. -/

/-- A hook chain: the `hooks` slice of Go `RequestHooks` / `ResponseHooks`. -/
structure Hooks (α : Type) where
  hooks : List α
deriving DecidableEq, Repr

/-- A non-nil interface value passed to `Append`: the no-op singleton
(`NopRequestHook` / `NopResponseHook`), a whole chain, or an ordinary hook. -/
inductive HookArg (α : Type) where
  | nop : HookArg α
  | chain (c : Hooks α) : HookArg α
  | atom (a : α) : HookArg α
deriving DecidableEq, Repr

/-- Go `(h *RequestHooks) Append(hook RequestHook)` (identically
`ResponseHooks.Append`): panic on a nil hook, skip the no-op singleton,
flatten another chain by splicing its hooks slice, otherwise append. -/
def Hooks.Append (h : Hooks α) (hook : Option (HookArg α)) : Except GoPanic (Hooks α) :=
  match hook with
  | none => Except.error ⟨"nil hook"⟩
  | some HookArg.nop => Except.ok h
  | some (HookArg.chain c) => Except.ok ⟨h.hooks ++ c.hooks⟩
  | some (HookArg.atom a) => Except.ok ⟨h.hooks ++ [a]⟩

/-- Go `(h *RequestHooks) Len()`. -/
def Hooks.Len (h : Hooks α) : Nat :=
  h.hooks.length

/-- The loop of Go `(h *RequestHooks) Do`: run each hook in order on the
message, stopping at (and returning) the first error; `apply` is the
dynamic dispatch `hook.Do`. -/
def hooksRun (apply : α → σ → σ × Option ε) : List α → σ → σ × Option ε
  | [], s => (s, none)
  | a :: rest, s =>
      match apply a s with
      | (s', none) => hooksRun apply rest s'
      | (s', some e) => (s', some e)

/-- Go `(h *RequestHooks) Do(req)` / `(h *ResponseHooks) Do(res)`:
fail-fast execution of the chain. -/
def Hooks.Do (apply : α → σ → σ × Option ε) (h : Hooks α) (s : σ) : σ × Option ε :=
  hooksRun apply h.hooks s

/-- Every hook in the list succeeds when started from `s` (each
application returns a nil error). -/
def NoFail (apply : α → σ → σ × Option ε) : List α → σ → Prop
  | [], _ => True
  | a :: rest, s => (apply a s).2 = none ∧ NoFail apply rest (apply a s).1

/-! ## Contexts and the context-scoped client (`client.go`) -/

/-- A value stored in a Go context under the package's private
`clientContextKey`; `κ` is the transport (Client) type. `other` stands for
a value of some type other than `Client` (so the type assertion in
`contextClient` fails on it). -/
inductive CtxVal (κ : Type) where
  | client (c : κ) : CtxVal κ
  | other (tag : Nat) : CtxVal κ
deriving DecidableEq, Repr

/-- A Go context, as far as this package observes it: the value stored
under `clientContextKey` (if any) and the stack of deadlines imposed on it
(caller deadlines and derived timeouts). -/
structure Context (κ : Type) where
  value : Option (CtxVal κ)
  deadlines : List Int
deriving DecidableEq, Repr

/-- Go `context.WithTimeout(ctx, d)`: a derived context keeping all stored
values and carrying the additional deadline. -/
def Context.withTimeout (ctx : Context κ) (d : Int) : Context κ :=
  ⟨ctx.value, ctx.deadlines ++ [d]⟩

/-- Go `ContextWithClient(ctx, client)`: panic on a nil client, else store
the client under `clientContextKey` in a derived context. -/
def ContextWithClient (ctx : Context κ) (client : Option κ) : Except GoPanic (Context κ) :=
  match client with
  | none => Except.error ⟨"nil client"⟩
  | some c => Except.ok ⟨some (CtxVal.client c), ctx.deadlines⟩

/-- Go `contextClient(ctx)`: the type assertion
`ctx.Value(clientContextKey).(Client)` with the `ok` check — absent or
wrongly-typed values yield nil (`none`). -/
def contextClient (ctx : Context κ) : Option κ :=
  match ctx.value with
  | some (CtxVal.client c) => some c
  | _ => none

/-! ## Requests and responses (the parts this package touches) -/

/-- The part of `*http.Response` this package observes: a status code and
the response headers. -/
structure Response where
  statusCode : Nat
  header : Header
deriving DecidableEq, Repr

/-- The part of `*http.Request` this package touches: the header map and
the request's context. -/
structure Request (κ : Type) where
  header : Header
  ctx : Context κ
deriving DecidableEq, Repr

/-- Go `req.WithContext(ctx)`. -/
def Request.withContext (r : Request κ) (ctx : Context κ) : Request κ :=
  ⟨r.header, ctx⟩

/-! ## The concrete hook types used by the Agent -/

/-- A request hook's dynamic behavior: Go `hook.Do(req)` mutating the
request in place and returning an error, rendered as a function from the
request to the mutated request and the returned error. -/
abbrev ReqHookFn (κ ε : Type) := Request κ → Request κ × Option ε

/-- Go `RequestHooks` instantiated with request-hook behaviors. -/
abbrev RequestHooks (κ ε : Type) := Hooks (ReqHookFn κ ε)

/-- A response hook's dynamic behavior. A Go hook receives `res
*http.Response` and mutates through the pointer: `run` is its behavior on
a present response; `runNil` is the error it returns when handed a nil
response pointer (it cannot make the pointer non-nil). -/
structure RespHook (ε : Type) where
  run : Response → Response × Option ε
  runNil : Option ε

/-- Go `ResponseHooks` instantiated with response-hook behaviors. -/
abbrev ResponseHooks (ε : Type) := Hooks (RespHook ε)

/-- Go `(h *RequestHooks) Do(req)`. -/
def RequestHooks.Do (h : RequestHooks κ ε) (req : Request κ) : Request κ × Option ε :=
  hooksRun (fun f s => f s) h.hooks req

/-- Go `(h *ResponseHooks) Do(res)` on a present response. -/
def ResponseHooks.Do (h : ResponseHooks ε) (res : Response) : Response × Option ε :=
  hooksRun RespHook.run h.hooks res

/-- The loop of Go `(h *ResponseHooks) Do(res)` when `res` is nil: each
hook sees the nil pointer, and the first error stops the loop. -/
def respHooksRunNil : List (RespHook ε) → Option ε
  | [] => none
  | a :: rest =>
      match a.runNil with
      | some e => some e
      | none => respHooksRunNil rest

/-- Go `(h *ResponseHooks) Do(res)` when `res` is nil. -/
def ResponseHooks.DoNil (h : ResponseHooks ε) : Option ε :=
  respHooksRunNil h.hooks

/-! ## `RequestHeaderHook` (`request_hook.go`) -/

/-- Go `RequestHeaderHook`: a header set to apply, add-vs-set mode, and
skip-if-exists mode. -/
structure RequestHeaderHook where
  Header : Header
  Add : Bool
  SkipIfExists : Bool
deriving DecidableEq, Repr

/-- One iteration of the loop in `RequestHeaderHook.Do` for one key of the
configured header set: skip when skip-if-exists finds the canonical key in
the request map, else add or set `h.Header.Get(key)`. -/
def applyHeaderKey (h : RequestHeaderHook) (key : String) (hdr : Header) : Header :=
  if h.SkipIfExists && (hdr.index (canonicalHeaderKey key)).isSome then hdr
  else
    let value := h.Header.Get key
    if h.Add then hdr.Add key value else hdr.Set key value

/-- The full loop of `RequestHeaderHook.Do` over the configured keys (the
list order stands for the Go map's iteration order). -/
def applyHeaderKeys (h : RequestHeaderHook) : List (String × List String) → Header → Header
  | [], hdr => hdr
  | e :: rest, hdr => applyHeaderKeys h rest (applyHeaderKey h e.fst hdr)

/-- Go `(h *RequestHeaderHook) Do(req)`: mutate the request's headers and
return nil. -/
def RequestHeaderHook.Do (h : RequestHeaderHook) (req : Request κ) : Request κ × Option ε :=
  ({ req with header := applyHeaderKeys h h.Header.entries req.header }, none)

/-! ## The Agent (`agent.go`) -/

/-- Go `Agent`: the underlying client, the default timeout (Go
`time.Duration`, an integer nanosecond count), the default header set and
the two hook chains. Field names are lowercased where the Go name would
collide with the field's type name. -/
structure Agent (κ ε : Type) where
  client : κ
  defaultTimeout : Int
  defaultHeader : Header
  requestHooks : RequestHooks κ ε
  responseHooks : ResponseHooks ε

/-- Go `NewAgent(client)`: empty header set, empty hook chains, zero
timeout. -/
def NewAgent (client : κ) : Agent κ ε :=
  { client := client, defaultTimeout := 0, defaultHeader := ⟨[]⟩,
    requestHooks := ⟨[]⟩, responseHooks := ⟨[]⟩ }

/-- The tail of Go `(a *Agent) Do(req)` once the client and the (possibly
timeout-rebound) request are fixed (agent.go lines 107-120): call the
transport; on transport error return `(nil, err)`; run response hooks on
the returned response (fail fast, a nil response included); return the
response with a nil error. `exec` is the dynamic dispatch `client.Do(req)`
for the transport type `κ`, yielding Go's `(*http.Response, error)` pair,
each component possibly nil. -/
def Agent.doTransport (exec : κ → Request κ → Option Response × Option ε)
    (rh : ResponseHooks ε) (client : κ) (req3 : Request κ) :
    Option Response × Option ε :=
  match exec client req3 with
  | (_, some e) => (none, some e)
  | (resOpt, none) =>
    match resOpt with
    | some res =>
      match ResponseHooks.Do rh res with
      | (_, some e) => (none, some e)
      | (res', none) => (some res', none)
    | none =>
      match ResponseHooks.DoNil rh with
      | some e => (none, some e)
      | none => (none, none)

/-- Go `(a *Agent) Do(req)`. The stages, in source order: apply default
headers with skip-if-exists; run request hooks (fail fast); resolve the
client from the request's context, falling back to the agent's own;
derive a timeout context when `defaultTimeout > 0`; then the transport
call and response hooks (`Agent.doTransport`). -/
def Agent.Do (exec : κ → Request κ → Option Response × Option ε)
    (a : Agent κ ε) (req : Request κ) : Option Response × Option ε :=
  match (RequestHeaderHook.mk a.defaultHeader false true).Do req with
  | (_, some e) => (none, some e)
  | (req1, none) =>
    match RequestHooks.Do a.requestHooks req1 with
    | (_, some e) => (none, some e)
    | (req2, none) =>
      let client :=
        match contextClient req2.ctx with
        | some c => c
        | none => a.client
      let req3 :=
        if a.defaultTimeout > 0 then
          req2.withContext (req2.ctx.withTimeout a.defaultTimeout)
        else req2
      Agent.doTransport exec a.responseHooks client req3

/-! ## Pointer-level store (for `Clone` / `WithClient` independence)

Go's `Clone` and `WithClient` promise independence of *mutable state*:
a cloned chain is a fresh `RequestHooks` struct with a copied hooks slice,
and `WithClient` builds a fresh Agent with `DefaultHeader.Clone()` and
cloned chains. We render pointers as indices into an explicit store. -/

/-- A chain pointer / header pointer: an index into a store. -/
abbrev Ptr := Nat

/-- Dereference a chain pointer (the pointed-to hooks slice). -/
def chainAt (chains : List (List α)) (p : Ptr) : List α :=
  (chains.get? p).getD []

/-- The in-place effect of Go `Append` with an ordinary hook, seen through
a chain pointer: the pointed-to slice grows by one hook. -/
def chainAppendAt (chains : List (List α)) (p : Ptr) (x : α) : List (List α) :=
  chains.set p (chainAt chains p ++ [x])

/-- Go `Clone()`: allocate a fresh chain (the store's next address)
holding a copy of the pointed-to hooks slice — same hook references, a
separate sequence. -/
def chainCloneAt (chains : List (List α)) (p : Ptr) : List (List α) × Ptr :=
  (chains ++ [chainAt chains p], chains.length)

/-- Dereference a header pointer. -/
def headerAt (headers : List Header) (p : Ptr) : Header :=
  (headers.get? p).getD ⟨[]⟩

/-- An arbitrary in-place mutation of the header map behind a pointer
(e.g. `Set`/`Add` on the derived agent's `DefaultHeader`). -/
def setHeaderAt (headers : List Header) (p : Ptr) (hdr : Header) : List Header :=
  headers.set p hdr

/-- An Agent at the pointer level: `DefaultHeader`, `RequestHooks` and
`ResponseHooks` are pointers into the store (`http.Header` is a map, a
reference type in Go). -/
structure AgentP where
  client : Nat
  defaultTimeout : Int
  defaultHeader : Ptr
  requestHooks : Ptr
  responseHooks : Ptr
deriving DecidableEq, Repr

/-- The store of all allocated header maps and hook chains; `α` and `β`
are the request- and response-hook reference types. -/
structure AgentStore (α β : Type) where
  headers : List Header
  reqChains : List (List α)
  resChains : List (List β)

/-- Go `(a *Agent) WithClient(client)` at the pointer level: a fresh Agent
with the new client, the same timeout, and freshly allocated copies of the
header map (`DefaultHeader.Clone()`) and of both hook chains
(`RequestHooks.Clone()`, `ResponseHooks.Clone()`). -/
def AgentStore.withClient (st : AgentStore α β) (a : AgentP) (c : Nat) :
    AgentStore α β × AgentP :=
  ( ⟨st.headers ++ [headerAt st.headers a.defaultHeader],
     st.reqChains ++ [chainAt st.reqChains a.requestHooks],
     st.resChains ++ [chainAt st.resChains a.responseHooks]⟩,
    ⟨c, a.defaultTimeout, st.headers.length, st.reqChains.length,
     st.resChains.length⟩ )

/-! ## Theorems -/

theorem hooksRun_append (apply : α → σ → σ × Option ε) (xs ys : List α) (s : σ) :
    hooksRun apply (xs ++ ys) s =
      match hooksRun apply xs s with
      | (s', none) => hooksRun apply ys s'
      | r => r := by
  induction xs generalizing s with
  | nil => simp [hooksRun]
  | cons a rest ih =>
      simp only [List.cons_append, hooksRun]
      cases hap : apply a s with
      | mk s' e =>
          cases e with
          | none => simpa using ih s'
          | some e => rfl

theorem hooksRun_noFail (apply : α → σ → σ × Option ε) (xs : List α) (s : σ)
    (h : NoFail apply xs s) : (hooksRun apply xs s).2 = none := by
  induction xs generalizing s with
  | nil => simp [hooksRun]
  | cons a rest ih =>
      obtain ⟨h1, h2⟩ := h
      simp only [hooksRun]
      cases hap : apply a s with
      | mk s' e =>
          cases e with
          | none => exact ih s' (by rw [hap] at h2; exact h2)
          | some e => rw [hap] at h1; simp at h1

/-! ### Association-list lemmas for the header map -/

theorem assocGet_assocSet_self (k : String) (vs : List String)
    (l : List (String × List String)) : assocGet k (assocSet k vs l) = some vs := by
  induction l with
  | nil => simp [assocGet, assocSet]
  | cons e rest ih =>
      by_cases he : e.fst = k
      · simp [assocSet, he, assocGet]
      · simp [assocSet, he, assocGet, ih]

theorem assocGet_assocSet_ne (k k2 : String) (hne : k ≠ k2) (vs : List String)
    (l : List (String × List String)) :
    assocGet k2 (assocSet k vs l) = assocGet k2 l := by
  induction l with
  | nil => simp [assocGet, assocSet, hne]
  | cons e rest ih =>
      by_cases he : e.fst = k
      · simp [assocSet, he, assocGet, hne, ih]
      · simp only [assocSet, if_neg he]
        by_cases he2 : e.fst = k2
        · simp [assocGet, he2]
        · simp [assocGet, he2, ih]

theorem distinctKeys_iff_nodup (l : List String) : distinctKeys l = true ↔ l.Nodup := by
  induction l with
  | nil => simp [distinctKeys]
  | cons k rest ih =>
      simp only [distinctKeys, Bool.and_eq_true, Bool.not_eq_true', List.nodup_cons, ih]
      constructor
      · rintro ⟨h1, h2⟩
        refine ⟨fun hmem => ?_, h2⟩
        have : (rest.any fun k2 => k2 == k) = true :=
          List.any_eq_true.mpr ⟨k, hmem, beq_self_eq_true k⟩
        rw [h1] at this
        cases this
      · rintro ⟨h1, h2⟩
        refine ⟨?_, h2⟩
        cases hany : rest.any (fun k2 => k2 == k) with
        | false => rfl
        | true =>
            obtain ⟨x, hx, hxk⟩ := List.any_eq_true.mp hany
            exact absurd ((beq_iff_eq).mp hxk ▸ hx) h1

theorem assocGet_of_mem_nodup (l : List (String × List String)) (key : String)
    (vs : List String) (hmem : (key, vs) ∈ l) (hnd : (l.map Prod.fst).Nodup) :
    assocGet key l = some vs := by
  induction l with
  | nil => cases hmem
  | cons e rest ih =>
      rw [List.map_cons, List.nodup_cons] at hnd
      rcases List.mem_cons.mp hmem with heq | hmem2
      · rw [← heq]
        simp [assocGet]
      · have hne : e.fst ≠ key := by
          intro hk
          exact hnd.1 (by rw [hk]; exact List.mem_map_of_mem _ hmem2)
        simp [assocGet, hne, ih hmem2 hnd.2]

theorem header_wf_canonical {h : Header} (hwf : h.wf = true) :
    ∀ e ∈ h.entries, canonicalHeaderKey e.fst = e.fst := by
  have hall := ((Bool.and_eq_true _ _).mp hwf).2
  intro e he
  exact (beq_iff_eq).mp (List.all_eq_true.mp hall e he)

theorem header_wf_nodup {h : Header} (hwf : h.wf = true) :
    (h.entries.map Prod.fst).Nodup :=
  (distinctKeys_iff_nodup _).mp ((Bool.and_eq_true _ _).mp hwf).1

theorem header_Get_of_entry {h : Header} {key v : String} {rest : List String}
    (hwf : h.wf = true) (hmem : (key, v :: rest) ∈ h.entries) :
    h.Get key = v := by
  have hck : canonicalHeaderKey key = key := header_wf_canonical hwf (key, v :: rest) hmem
  unfold Header.Get
  rw [hck, assocGet_of_mem_nodup _ _ _ hmem (header_wf_nodup hwf)]

/-! ### Behavior of the header-hook loop -/

theorem applyHeaderKey_preserve (h : RequestHeaderHook) (key : String) (hdr : Header)
    (k : String) (hne : canonicalHeaderKey key ≠ k) :
    (applyHeaderKey h key hdr).index k = hdr.index k := by
  unfold applyHeaderKey
  by_cases hskip : (h.SkipIfExists && (hdr.index (canonicalHeaderKey key)).isSome) = true
  · simp [hskip]
  · rw [if_neg hskip]
    by_cases hadd : h.Add = true
    · simp [hadd, Header.Add, Header.index, assocGet_assocSet_ne _ _ hne]
    · simp [hadd, Header.Set, Header.index, assocGet_assocSet_ne _ _ hne]

theorem applyHeaderKeys_preserve (h : RequestHeaderHook)
    (entries : List (String × List String)) (hdr : Header) (k : String)
    (hall : ∀ e ∈ entries, canonicalHeaderKey e.fst ≠ k) :
    (applyHeaderKeys h entries hdr).index k = hdr.index k := by
  induction entries generalizing hdr with
  | nil => rfl
  | cons e rest ih =>
      simp only [applyHeaderKeys]
      rw [ih _ (fun e2 he2 => hall e2 (List.mem_cons_of_mem _ he2)),
          applyHeaderKey_preserve h e.fst hdr k (hall e (List.mem_cons_self _ _))]

theorem applyHeaderKeys_append (h : RequestHeaderHook)
    (l1 l2 : List (String × List String)) (hdr : Header) :
    applyHeaderKeys h (l1 ++ l2) hdr = applyHeaderKeys h l2 (applyHeaderKeys h l1 hdr) := by
  induction l1 generalizing hdr with
  | nil => rfl
  | cons e rest ih => simp [applyHeaderKeys, ih]

theorem applyHeaderKey_self (h : RequestHeaderHook) (key : String) (hdr : Header)
    (hck : canonicalHeaderKey key = key) :
    (applyHeaderKey h key hdr).index key =
      if h.SkipIfExists && (hdr.index key).isSome then hdr.index key
      else some (if h.Add then (hdr.index key).getD [] ++ [h.Header.Get key]
                 else [h.Header.Get key]) := by
  unfold applyHeaderKey
  rw [hck]
  cases hskipb : (h.SkipIfExists && (hdr.index key).isSome) with
  | true => simp [hskipb]
  | false =>
      simp only [hskipb, Bool.false_eq_true, if_false]
      cases haddb : h.Add with
      | true => simp [haddb, Header.Add, Header.index, hck, assocGet_assocSet_self]
      | false => simp [haddb, Header.Set, Header.index, hck, assocGet_assocSet_self]

theorem applyHeaderKeys_run (h : RequestHeaderHook) (req : Header) (key : String)
    (vs : List String) (hwf : h.Header.wf = true)
    (hmem : (key, vs) ∈ h.Header.entries) :
    (applyHeaderKeys h h.Header.entries req).index key =
      if h.SkipIfExists && (req.index key).isSome then req.index key
      else some (if h.Add then (req.index key).getD [] ++ [h.Header.Get key]
                 else [h.Header.Get key]) := by
  have hck : canonicalHeaderKey key = key := header_wf_canonical hwf _ hmem
  have hnd : (h.Header.entries.map Prod.fst).Nodup := header_wf_nodup hwf
  obtain ⟨pre, post, hsplit⟩ := List.append_of_mem hmem
  have hnd2 := hsplit ▸ hnd
  rw [List.map_append, List.map_cons] at hnd2
  have hmid := List.nodup_middle.mp hnd2
  have hnotin : key ∉ pre.map Prod.fst ++ post.map Prod.fst := (List.nodup_cons.mp hmid).1
  have hpre : ∀ e ∈ pre, canonicalHeaderKey e.fst ≠ key := by
    intro e he
    rw [header_wf_canonical hwf e (by rw [hsplit]; exact List.mem_append_left _ he)]
    intro hk
    exact hnotin (List.mem_append_left _ (hk ▸ List.mem_map_of_mem _ he))
  have hpost : ∀ e ∈ post, canonicalHeaderKey e.fst ≠ key := by
    intro e he
    rw [header_wf_canonical hwf e
      (by rw [hsplit]; exact List.mem_append_right _ (List.mem_cons_of_mem _ he))]
    intro hk
    exact hnotin (List.mem_append_right _ (hk ▸ List.mem_map_of_mem _ he))
  rw [hsplit, applyHeaderKeys_append]
  simp only [applyHeaderKeys]
  rw [applyHeaderKeys_preserve h post _ key hpost,
      applyHeaderKey_self h key _ hck,
      applyHeaderKeys_preserve h pre req key hpre]


/-! ## Claims -/

/-- C1: For every request and every header name in the RequestHeaderHook's
configured Header Set (well-formed per the spec's Header Set model:
distinct, canonicalized keys, and a configured value present) that is not
skipped: in add-mode the hook appends the configured value after the
request's pre-existing values for that name (pre-existing values first,
configured value last); in set-mode it replaces the request's values for
that name with exactly the configured value; and in every mode and for
every input the hook returns success. -/
theorem c1_request_header_hook (κ ε : Type) (h : RequestHeaderHook) (req : Request κ)
    (key v : String) (rest : List String)
    (hwf : h.Header.wf = true)
    (hmem : (key, v :: rest) ∈ h.Header.entries)
    (hskip : ¬(h.SkipIfExists = true ∧ (req.header.index key).isSome = true)) :
    (∀ (h2 : RequestHeaderHook) (r : Request κ),
       (RequestHeaderHook.Do h2 r : Request κ × Option ε).2 = none) ∧
    (RequestHeaderHook.Do h req : Request κ × Option ε).1.header.index key =
      some (if h.Add then (req.header.index key).getD [] ++ [v] else [v]) := by
  refine ⟨fun _ _ => rfl, ?_⟩
  have hGet : h.Header.Get key = v := header_Get_of_entry hwf hmem
  have hrun := applyHeaderKeys_run h req.header key (v :: rest) hwf hmem
  have hcond : (h.SkipIfExists && (req.header.index key).isSome) = false := by
    cases hS : h.SkipIfExists <;> cases hI : (req.header.index key).isSome <;> simp_all
  simp only [RequestHeaderHook.Do]
  rw [hrun, hcond, hGet]
  simp

/-- C1 witness: add-mode on a request that already carries the name
appends the first configured value after the pre-existing value. -/
theorem c1_request_header_hook_witness :
    (RequestHeaderHook.Do ⟨⟨[("X-Foo", ["a", "b"])]⟩, true, false⟩
        (⟨⟨[("X-Foo", ["z"])]⟩, ⟨none, []⟩⟩ : Request Unit)
      : Request Unit × Option String).1.header.index "X-Foo" = some ["z", "a"] :=
  ((c1_request_header_hook Unit String ⟨⟨[("X-Foo", ["a", "b"])]⟩, true, false⟩
      ⟨⟨[("X-Foo", ["z"])]⟩, ⟨none, []⟩⟩ "X-Foo" "a" ["b"]
      (by decide) (by decide) (by decide)).2).trans (by decide)

/-- C2: appending chain B to chain A splices B's hooks individually after
A's (never nested), the new length is the sum of the lengths, and
executing the appended chain runs A's hooks first, then B's, in their
original orders. -/
theorem c2_append_flattens (α : Type) (A B : Hooks α) :
    A.Append (some (HookArg.chain B)) = Except.ok (Hooks.mk (A.hooks ++ B.hooks)) ∧
    (Hooks.mk (A.hooks ++ B.hooks) : Hooks α).Len = A.Len + B.Len ∧
    (∀ (σ ε : Type) (apply : α → σ → σ × Option ε) (s : σ),
       Hooks.Do apply (Hooks.mk (A.hooks ++ B.hooks)) s =
         match Hooks.Do apply A s with
         | (s', none) => Hooks.Do apply B s'
         | r => r) := by
  refine ⟨rfl, by simp [Hooks.Len], ?_⟩
  intro σ ε apply s
  exact hooksRun_append apply A.hooks B.hooks s

/-- C3: executing a chain runs hooks in order and stops at the first hook
that errors, returning exactly that error and the message as mutated up to
and including the failing hook (earlier mutations are not rolled back);
hooks after the failing one are never run (the result does not depend on
them); the empty chain and a chain whose hooks all succeed return
success. -/
theorem c3_fail_fast (α σ ε : Type) (apply : α → σ → σ × Option ε) (h : Hooks α) :
    (∀ s : σ, Hooks.Do apply (Hooks.mk ([] : List α)) s = (s, none)) ∧
    (∀ (xs ys : List α) (y : α) (s s' s'' : σ) (e : ε),
       h.hooks = xs ++ y :: ys →
       hooksRun apply xs s = (s', none) →
       apply y s' = (s'', some e) →
       Hooks.Do apply h s = (s'', some e)) ∧
    (∀ s : σ, NoFail apply h.hooks s → (Hooks.Do apply h s).2 = none) := by
  refine ⟨fun s => rfl, ?_, fun s hnf => hooksRun_noFail apply h.hooks s hnf⟩
  intro xs ys y s s' s'' e hsplit hxs hy
  unfold Hooks.Do
  rw [hsplit, hooksRun_append, hxs]
  simp only [hooksRun, hy]

/-- C3 witness: in the chain [increment, fail-with-boom, add-100] run from
0, the first two hooks run (the state shows both mutations), the third
never does, and the chain returns the boom error. -/
theorem c3_fail_fast_witness :
    Hooks.Do (fun (f : Nat → Nat × Option String) s => f s)
      (Hooks.mk [fun n => (n + 1, none), fun n => (n * 10, some "boom"),
                 fun n => (n + 100, none)]) 0 = (10, some "boom") :=
  (c3_fail_fast (Nat → Nat × Option String) Nat String (fun f s => f s)
      (Hooks.mk [fun n => (n + 1, none), fun n => (n * 10, some "boom"),
                 fun n => (n + 100, none)])).2.1
    [fun n => (n + 1, none)] [fun n => (n + 100, none)]
    (fun n => (n * 10, some "boom")) 0 1 10 "boom" rfl rfl rfl

/-- C8: appending a nil hook to any chain in any state panics (fails fast,
never silently ignored), and attaching a nil transport via
ContextWithClient panics (never silently falls back). -/
theorem c8_nil_fails_fast :
    (∀ (α : Type) (h : Hooks α), h.Append none = Except.error ⟨"nil hook"⟩) ∧
    (∀ (κ : Type) (ctx : Context κ),
       ContextWithClient ctx none = Except.error ⟨"nil client"⟩) :=
  ⟨fun _ _ => rfl, fun _ _ => rfl⟩

/-- C9: appending the designated no-op singleton hook leaves the chain
unchanged — it is never stored, so Len and execution behavior on every
message are unchanged. -/
theorem c9_nop_append (α : Type) (h : Hooks α) :
    h.Append (some HookArg.nop) = Except.ok h ∧
    (h.Append (some HookArg.nop)).map Hooks.Len = Except.ok h.Len ∧
    (∀ (σ ε : Type) (apply : α → σ → σ × Option ε) (s : σ),
       (h.Append (some HookArg.nop)).map (fun h2 => Hooks.Do apply h2 s) =
         Except.ok (Hooks.Do apply h s)) :=
  ⟨rfl, rfl, fun _ _ _ _ => rfl⟩

/-- C10 counterexample: with skip-if-exists enabled and the configured
name already present on the request, set-mode leaves the pre-existing
value in place — the request does not end up carrying the first configured
value, contrary to the claim's unconditional reading. -/
theorem c10_counterexample :
    (RequestHeaderHook.Do ⟨⟨[("K", ["a", "b"])]⟩, false, true⟩
        (⟨⟨[("K", ["z"])]⟩, ⟨none, []⟩⟩ : Request Unit)
      : Request Unit × Option String).1.header.index "K" = some ["z"] ∧
    (["z"] : List String) ≠ ["a"] := by
  exact ⟨by decide, by decide⟩

/-- C10 (amended): for every header name configured with two or more
values that is not skipped, only the first configured value is applied:
set-mode leaves exactly that single first value, add-mode the pre-existing
values followed by that single first value; later configured values are
never applied. -/
theorem c10_first_value_only (κ ε : Type) (h : RequestHeaderHook) (req : Request κ)
    (key v1 v2 : String) (rest : List String)
    (hwf : h.Header.wf = true)
    (hmem : (key, v1 :: v2 :: rest) ∈ h.Header.entries)
    (hskip : ¬(h.SkipIfExists = true ∧ (req.header.index key).isSome = true)) :
    (RequestHeaderHook.Do h req : Request κ × Option ε).1.header.index key =
      some (if h.Add then (req.header.index key).getD [] ++ [v1] else [v1]) := by
  have hGet : h.Header.Get key = v1 := header_Get_of_entry hwf hmem
  have hrun := applyHeaderKeys_run h req.header key (v1 :: v2 :: rest) hwf hmem
  have hcond : (h.SkipIfExists && (req.header.index key).isSome) = false := by
    cases hS : h.SkipIfExists <;> cases hI : (req.header.index key).isSome <;> simp_all
  simp only [RequestHeaderHook.Do]
  rw [hrun, hcond, hGet]
  simp

/-- C10 witness: set-mode with configured values [a, b] on a fresh name
stores exactly [a]; the second value b is never applied. -/
theorem c10_first_value_only_witness :
    (RequestHeaderHook.Do ⟨⟨[("K", ["a", "b"])]⟩, false, false⟩
        (⟨⟨[]⟩, ⟨none, []⟩⟩ : Request Unit)
      : Request Unit × Option String).1.header.index "K" = some ["a"] :=
  (c10_first_value_only Unit String ⟨⟨[("K", ["a", "b"])]⟩, false, false⟩
      ⟨⟨[]⟩, ⟨none, []⟩⟩ "K" "a" "b" []
      (by decide) (by decide) (by decide)).trans (by decide)

/-! ### Agent pipeline helper lemmas -/

theorem applyHeaderKeys_skip_present (h : RequestHeaderHook)
    (entries : List (String × List String)) (hSkip : h.SkipIfExists = true) :
    ∀ (hdr : Header) (k : String),
      (∀ e ∈ entries, canonicalHeaderKey e.fst = e.fst) →
      (hdr.index k).isSome = true →
      (applyHeaderKeys h entries hdr).index k = hdr.index k := by
  induction entries with
  | nil => intro hdr k _ _; rfl
  | cons e rest ih =>
      intro hdr k hcanon hpresent
      have hce := hcanon e (List.mem_cons_self _ _)
      have hstep : (applyHeaderKey h e.fst hdr).index k = hdr.index k := by
        by_cases hek : e.fst = k
        · unfold applyHeaderKey
          rw [hce, hek, hSkip, hpresent]
          simp
        · exact applyHeaderKey_preserve h e.fst hdr k (by rw [hce]; exact hek)
      simp only [applyHeaderKeys]
      rw [ih _ _ (fun e2 he2 => hcanon e2 (List.mem_cons_of_mem _ he2))
            (by rw [hstep]; exact hpresent), hstep]

theorem doTransport_shape (κ ε : Type) (exec : κ → Request κ → Option Response × Option ε)
    (rh : ResponseHooks ε) (client : κ) (req3 : Request κ) :
    (∃ e, Agent.doTransport exec rh client req3 = (none, some e)) ∨
    (∃ r, Agent.doTransport exec rh client req3 = (some r, none)) ∨
    (exec client req3 = (none, none) ∧
      Agent.doTransport exec rh client req3 = (none, none)) := by
  unfold Agent.doTransport
  obtain ⟨ro, eo, hx⟩ : ∃ ro eo, exec client req3 = (ro, eo) := ⟨_, _, rfl⟩
  cases eo with
  | some e =>
      exact Or.inl ⟨e, by simp only [hx]⟩
  | none =>
      cases ro with
      | none =>
          cases hn : ResponseHooks.DoNil rh with
          | some e => exact Or.inl ⟨e, by simp only [hx, hn]⟩
          | none => exact Or.inr (Or.inr ⟨hx, by simp only [hx, hn]⟩)
      | some res =>
          obtain ⟨res2, e2, hr⟩ : ∃ r e, ResponseHooks.Do rh res = (r, e) := ⟨_, _, rfl⟩
          cases e2 with
          | some e => exact Or.inl ⟨e, by simp only [hx, hr]⟩
          | none => exact Or.inr (Or.inl ⟨res2, by simp only [hx, hr]⟩)

theorem agentDo_shape (κ ε : Type) (exec : κ → Request κ → Option Response × Option ε)
    (a : Agent κ ε) (req : Request κ) :
    (∃ e, Agent.Do exec a req = (none, some e)) ∨
    (∃ r, Agent.Do exec a req = (some r, none)) ∨
    ((∃ c r3, exec c r3 = (none, none)) ∧ Agent.Do exec a req = (none, none)) := by
  obtain ⟨req1, hreq1⟩ : ∃ r1,
      (RequestHeaderHook.Do ⟨a.defaultHeader, false, true⟩ req : Request κ × Option ε)
        = (r1, none) := ⟨_, rfl⟩
  unfold Agent.Do
  simp only [hreq1]
  obtain ⟨req2, e2, hq⟩ : ∃ r e, RequestHooks.Do a.requestHooks req1 = (r, e) := ⟨_, _, rfl⟩
  cases e2 with
  | some e =>
      simp only [hq]
      exact Or.inl ⟨e, rfl⟩
  | none =>
      simp only [hq]
      rcases doTransport_shape κ ε exec a.responseHooks
          (match contextClient req2.ctx with | some c => c | none => a.client)
          (if a.defaultTimeout > 0 then
             req2.withContext (req2.ctx.withTimeout a.defaultTimeout)
           else req2)
        with ⟨e, he⟩ | ⟨r, hr⟩ | ⟨hx, hn⟩
      · exact Or.inl ⟨e, he⟩
      · exact Or.inr (Or.inl ⟨r, hr⟩)
      · exact Or.inr (Or.inr ⟨⟨_, _, hx⟩, hn⟩)

/-- C4: Agent.Do applies the Agent's default Header Set with skip-if-exists
semantics before any other stage: a header name the caller already set on
the request (canonical per the Header Set model, so matching is
case-insensitive) is never overwritten by the default and the transport
receives the caller's value, while default header names absent from the
request are set on it. The conjuncts: (1) caller-set names survive the
defaulting stage untouched; (2) absent default names are set to the
default's value; (3) with no hooks, an echo transport receives exactly the
defaulted header; (4) the defaulting stage precedes the request-hook
stage — a hook observes the already-defaulted request. -/
theorem c4_default_header_skip (t : Int) (dh : Header) (req : Request Unit)
    (hwf : dh.wf = true) :
    (∀ k, (req.header.index k).isSome = true →
       (applyHeaderKeys ⟨dh, false, true⟩ dh.entries req.header).index k
         = req.header.index k) ∧
    (∀ k vs, (k, vs) ∈ dh.entries → req.header.index k = none →
       (applyHeaderKeys ⟨dh, false, true⟩ dh.entries req.header).index k
         = some [dh.Get k]) ∧
    (Agent.Do (fun (_ : Unit) r => (some ⟨0, r.header⟩, none))
        ⟨(), t, dh, ⟨[]⟩, ⟨[]⟩⟩ req
      = (some ⟨0, applyHeaderKeys ⟨dh, false, true⟩ dh.entries req.header⟩,
         (none : Option Unit))) ∧
    (Agent.Do (fun (_ : Unit) _ => ((none : Option Response), (none : Option (Request Unit))))
        ⟨(), t, dh, ⟨[fun r => (r, some r)]⟩, ⟨[]⟩⟩ req
      = (none, some ⟨applyHeaderKeys ⟨dh, false, true⟩ dh.entries req.header, req.ctx⟩)) := by
  refine ⟨?_, ?_, ?_, ?_⟩
  · intro k hk
    exact applyHeaderKeys_skip_present ⟨dh, false, true⟩ dh.entries rfl req.header k
      (header_wf_canonical hwf) hk
  · intro k vs hmem habsent
    have hrun := applyHeaderKeys_run ⟨dh, false, true⟩ req.header k vs hwf hmem
    rw [hrun, habsent]
    simp
  · by_cases ht : t > 0 <;>
      simp [Agent.Do, Agent.doTransport, RequestHeaderHook.Do, RequestHooks.Do,
            ResponseHooks.Do, hooksRun, Request.withContext, ht]
  · by_cases ht : t > 0 <;>
      simp [Agent.Do, RequestHeaderHook.Do, RequestHooks.Do, hooksRun, ht]

/-- C4 witness: with default header X-Foo:1 and a request already carrying
X-Foo:2, the defaulting stage leaves X-Foo at the caller's value 2. -/
theorem c4_default_header_skip_witness :
    (applyHeaderKeys ⟨⟨[("X-Foo", ["1"]), ("X-Bar", ["9"])]⟩, false, true⟩
        (⟨[("X-Foo", ["1"]), ("X-Bar", ["9"])]⟩ : Header).entries
        (⟨[("X-Foo", ["2"])]⟩ : Header)).index "X-Foo"
      = (⟨[("X-Foo", ["2"])]⟩ : Header).index "X-Foo" :=
  (c4_default_header_skip 0 ⟨[("X-Foo", ["1"]), ("X-Bar", ["9"])]⟩
      ⟨⟨[("X-Foo", ["2"])]⟩, ⟨none, []⟩⟩ (by decide)).1 "X-Foo" (by decide)

/-- C5 counterexample: the claim quantifies over every behavior of the
injected transport, but a transport that returns (nil, nil) makes Agent.Do
return (nil, nil) — response and error both nil. -/
theorem c5_counterexample :
    Agent.Do (fun (_ : Unit) (_ : Request Unit) =>
        ((none : Option Response), (none : Option String)))
      ⟨(), 0, ⟨[]⟩, ⟨[]⟩, ⟨[]⟩⟩ ⟨⟨[]⟩, ⟨none, []⟩⟩ = (none, none) := rfl

/-- C5 (amended): Agent.Do never returns both a response and an error;
and provided the injected transport itself returns exactly one of
response/error non-nil (the documented http.Client contract), Agent.Do
returns exactly one of them non-nil. A request-hook error yields (nil,
that error); a transport error yields (nil, that error); a response-hook
error yields (nil, that error). -/
theorem c5_success_xor_error (κ ε : Type)
    (exec : κ → Request κ → Option Response × Option ε)
    (a : Agent κ ε) (req : Request κ)
    (hcontract : ∀ c r, (exec c r).1.isSome = (exec c r).2.isNone) :
    ((Agent.Do exec a req).1.isSome = (Agent.Do exec a req).2.isNone) ∧
    (∀ (κ2 ε2 : Type) (exec2 : κ2 → Request κ2 → Option Response × Option ε2)
       (a2 : Agent κ2 ε2) (req2 : Request κ2),
       (Agent.Do exec2 a2 req2).1.isSome = true → (Agent.Do exec2 a2 req2).2 = none) ∧
    (∀ e : ε, (RequestHooks.Do a.requestHooks
         (RequestHeaderHook.Do ⟨a.defaultHeader, false, true⟩ req
           : Request κ × Option ε).1).2 = some e →
       Agent.Do exec a req = (none, some e)) ∧
    (∀ (κ2 ε2 : Type) (e : ε2) (a2 : Agent κ2 ε2) (req2 : Request κ2),
       a2.requestHooks = ⟨[]⟩ →
       Agent.Do (fun _ _ => ((none : Option Response), some e)) a2 req2
         = (none, some e)) ∧
    (∀ (κ2 ε2 : Type) (e : ε2) (res : Response) (a2 : Agent κ2 ε2) (req2 : Request κ2),
       a2.requestHooks = ⟨[]⟩ →
       a2.responseHooks = ⟨[⟨fun r => (r, some e), some e⟩]⟩ →
       Agent.Do (fun _ _ => (some res, (none : Option ε2))) a2 req2
         = (none, some e)) := by
  refine ⟨?_, ?_, ?_, ?_, ?_⟩
  · rcases agentDo_shape κ ε exec a req with ⟨e, he⟩ | ⟨r, hr⟩ | ⟨⟨c, r3, hx⟩, _⟩
    · simp [he]
    · simp [hr]
    · have := hcontract c r3
      rw [hx] at this
      simp at this
  · intro κ2 ε2 exec2 a2 req2 hsome
    rcases agentDo_shape κ2 ε2 exec2 a2 req2 with ⟨e, he⟩ | ⟨r, hr⟩ | ⟨_, hn⟩
    · rw [he] at hsome; simp at hsome
    · rw [hr]
    · rw [hn] at hsome; simp at hsome
  · intro e he
    obtain ⟨req1, hreq1⟩ : ∃ r1,
        (RequestHeaderHook.Do ⟨a.defaultHeader, false, true⟩ req : Request κ × Option ε)
          = (r1, none) := ⟨_, rfl⟩
    obtain ⟨req2, e2, hq⟩ : ∃ r e2, RequestHooks.Do a.requestHooks req1 = (r, e2) :=
      ⟨_, _, rfl⟩
    have he2 : e2 = some e := by
      have : (RequestHooks.Do a.requestHooks req1).2 = some e := by
        rw [show req1 = (RequestHeaderHook.Do ⟨a.defaultHeader, false, true⟩ req
              : Request κ × Option ε).1 from by rw [hreq1]]
        exact he
      rw [hq] at this
      exact this
    unfold Agent.Do
    simp only [hreq1]
    rw [hq, he2]
  · intro κ2 ε2 e a2 req2 hempty
    unfold Agent.Do
    simp only [RequestHeaderHook.Do, hempty, RequestHooks.Do, hooksRun]
    simp [Agent.doTransport]
  · intro κ2 ε2 e res a2 req2 hempty hresp
    unfold Agent.Do
    simp only [RequestHeaderHook.Do, hempty, RequestHooks.Do, hooksRun]
    simp [Agent.doTransport, hresp, ResponseHooks.Do, hooksRun]

/-- C5 witness: with a contract-abiding transport that always returns a
200 response and no hooks, Agent.Do returns a present response and a nil
error (exactly one of the pair non-nil). -/
theorem c5_success_xor_error_witness :
    (Agent.Do (fun (_ : Unit) (_ : Request Unit) =>
         (some ⟨200, ⟨[]⟩⟩, (none : Option String)))
       ⟨(), 0, ⟨[]⟩, ⟨[]⟩, ⟨[]⟩⟩ ⟨⟨[]⟩, ⟨none, []⟩⟩).1.isSome
      = (Agent.Do (fun (_ : Unit) (_ : Request Unit) =>
           (some ⟨200, ⟨[]⟩⟩, (none : Option String)))
         ⟨(), 0, ⟨[]⟩, ⟨[]⟩, ⟨[]⟩⟩ ⟨⟨[]⟩, ⟨none, []⟩⟩).2.isNone :=
  (c5_success_xor_error Unit String
      (fun _ _ => (some ⟨200, ⟨[]⟩⟩, none))
      ⟨(), 0, ⟨[]⟩, ⟨[]⟩, ⟨[]⟩⟩ ⟨⟨[]⟩, ⟨none, []⟩⟩
      (fun _ _ => rfl)).1

/-- C6: Agent.Do invokes the transport attached to the request's context
via ContextWithClient whenever one is present, and the Agent's own default
transport exactly when none is present; contextClient lookup of an absent
or wrongly-typed context value yields absent (and, being a total function,
never aborts). The dispatch conjunct uses a transport family whose
response status code identifies the client that was invoked. -/
theorem c6_transport_resolution (n : Nat) (t : Int) (dh : Header) (req : Request Nat) :
    (∀ ds : List Int, contextClient (⟨none, ds⟩ : Context Nat) = none) ∧
    (∀ (tag : Nat) (ds : List Int),
       contextClient (⟨some (CtxVal.other tag), ds⟩ : Context Nat) = none) ∧
    (∀ (c : Nat) (ctx : Context Nat),
       (ContextWithClient ctx (some c)).map contextClient = Except.ok (some c)) ∧
    (Agent.Do (fun (c : Nat) _ => (some ⟨c, ⟨[]⟩⟩, (none : Option Unit)))
        ⟨n, t, dh, ⟨[]⟩, ⟨[]⟩⟩ req
      = (some ⟨(contextClient req.ctx).getD n, ⟨[]⟩⟩, none)) := by
  refine ⟨fun _ => rfl, fun _ _ => rfl, fun _ _ => rfl, ?_⟩
  cases hc : contextClient req.ctx with
  | none =>
      by_cases ht : t > 0 <;>
        simp [Agent.Do, Agent.doTransport, RequestHeaderHook.Do, RequestHooks.Do,
              ResponseHooks.Do, hooksRun, Request.withContext, hc, ht]
  | some c =>
      by_cases ht : t > 0 <;>
        simp [Agent.Do, Agent.doTransport, RequestHeaderHook.Do, RequestHooks.Do,
              ResponseHooks.Do, hooksRun, Request.withContext, hc, ht]

/-! ### Store lemmas for Clone / WithClient independence -/

theorem chainAt_extend (chains : List (List γ)) (q : Ptr) (xs : List γ)
    (hq : q < chains.length) : chainAt (chains ++ [xs]) q = chainAt chains q := by
  unfold chainAt
  rw [List.get?_append hq]

theorem chainAt_extend_self (chains : List (List γ)) (xs : List γ) :
    chainAt (chains ++ [xs]) chains.length = xs := by
  unfold chainAt
  rw [List.get?_concat_length]
  rfl

theorem chainAt_set_ne (chains : List (List γ)) (p q : Ptr) (hpq : p ≠ q) (xs : List γ) :
    chainAt (chains.set p xs) q = chainAt chains q := by
  unfold chainAt
  rw [List.get?_set_ne _ _ hpq]

theorem headerAt_extend (headers : List Header) (q : Ptr) (hdr : Header)
    (hq : q < headers.length) : headerAt (headers ++ [hdr]) q = headerAt headers q := by
  unfold headerAt
  rw [List.get?_append hq]

theorem headerAt_extend_self (headers : List Header) (hdr : Header) :
    headerAt (headers ++ [hdr]) headers.length = hdr := by
  unfold headerAt
  rw [List.get?_concat_length]
  rfl

theorem headerAt_set_ne (headers : List Header) (p q : Ptr) (hpq : p ≠ q) (hdr : Header) :
    headerAt (headers.set p hdr) q = headerAt headers q := by
  unfold headerAt
  rw [List.get?_set_ne _ _ hpq]

/-- C7: WithClient returns a new Agent carrying the new transport and the
same timeout, whose Header Set and hook chains are independent copies
(equal contents at fresh addresses): mutating the derived Agent's header
map or appending to its chains leaves the original Agent's header and
chains unchanged, and vice versa; and a bare chain Clone holds the same
hook sequence at a separate address, so appending to either chain never
changes the other. -/
theorem c7_withclient_independence (α β : Type) (st : AgentStore α β) (a : AgentP) (c : Nat)
    (hh : a.defaultHeader < st.headers.length)
    (hr : a.requestHooks < st.reqChains.length)
    (hs : a.responseHooks < st.resChains.length) :
    ∀ (st2 : AgentStore α β) (a2 : AgentP), AgentStore.withClient st a c = (st2, a2) →
      (a2.client = c ∧ a2.defaultTimeout = a.defaultTimeout) ∧
      (headerAt st2.headers a2.defaultHeader = headerAt st.headers a.defaultHeader ∧
       chainAt st2.reqChains a2.requestHooks = chainAt st.reqChains a.requestHooks ∧
       chainAt st2.resChains a2.responseHooks = chainAt st.resChains a.responseHooks) ∧
      (a2.defaultHeader ≠ a.defaultHeader ∧ a2.requestHooks ≠ a.requestHooks ∧
       a2.responseHooks ≠ a.responseHooks) ∧
      (∀ hdr, headerAt (setHeaderAt st2.headers a2.defaultHeader hdr) a.defaultHeader
         = headerAt st.headers a.defaultHeader) ∧
      (∀ x, chainAt (chainAppendAt st2.reqChains a2.requestHooks x) a.requestHooks
         = chainAt st.reqChains a.requestHooks) ∧
      (∀ y, chainAt (chainAppendAt st2.resChains a2.responseHooks y) a.responseHooks
         = chainAt st.resChains a.responseHooks) ∧
      (∀ hdr, headerAt (setHeaderAt st2.headers a.defaultHeader hdr) a2.defaultHeader
         = headerAt st.headers a.defaultHeader) ∧
      (∀ x, chainAt (chainAppendAt st2.reqChains a.requestHooks x) a2.requestHooks
         = chainAt st.reqChains a.requestHooks) ∧
      (∀ y, chainAt (chainAppendAt st2.resChains a.responseHooks y) a2.responseHooks
         = chainAt st.resChains a.responseHooks) ∧
      (∀ (chains : List (List α)) (q : Ptr), q < chains.length →
         chainAt (chainCloneAt chains q).1 (chainCloneAt chains q).2 = chainAt chains q ∧
         (∀ x, chainAt (chainAppendAt (chainCloneAt chains q).1 (chainCloneAt chains q).2 x) q
            = chainAt chains q) ∧
         (∀ x, chainAt (chainAppendAt (chainCloneAt chains q).1 q x) (chainCloneAt chains q).2
            = chainAt chains q)) := by
  intro st2 a2 heq
  have hst2 : st2 = ⟨st.headers ++ [headerAt st.headers a.defaultHeader],
                     st.reqChains ++ [chainAt st.reqChains a.requestHooks],
                     st.resChains ++ [chainAt st.resChains a.responseHooks]⟩ :=
    (congrArg Prod.fst heq).symm
  have ha2 : a2 = ⟨c, a.defaultTimeout, st.headers.length, st.reqChains.length,
                   st.resChains.length⟩ :=
    (congrArg Prod.snd heq).symm
  subst hst2
  subst ha2
  have hhne : st.headers.length ≠ a.defaultHeader := Ne.symm (Nat.ne_of_lt hh)
  have hrne : st.reqChains.length ≠ a.requestHooks := Ne.symm (Nat.ne_of_lt hr)
  have hsne : st.resChains.length ≠ a.responseHooks := Ne.symm (Nat.ne_of_lt hs)
  refine ⟨⟨rfl, rfl⟩, ⟨?_, ?_, ?_⟩, ⟨hhne, hrne, hsne⟩, ?_, ?_, ?_, ?_, ?_, ?_, ?_⟩
  · exact headerAt_extend_self st.headers _
  · exact chainAt_extend_self st.reqChains _
  · exact chainAt_extend_self st.resChains _
  · intro hdr
    rw [setHeaderAt, headerAt_set_ne _ _ _ hhne, headerAt_extend _ _ _ hh]
  · intro x
    rw [chainAppendAt, chainAt_set_ne _ _ _ hrne, chainAt_extend _ _ _ hr]
  · intro y
    rw [chainAppendAt, chainAt_set_ne _ _ _ hsne, chainAt_extend _ _ _ hs]
  · intro hdr
    rw [setHeaderAt, headerAt_set_ne _ _ _ (Ne.symm hhne), headerAt_extend_self]
  · intro x
    rw [chainAppendAt, chainAt_set_ne _ _ _ (Ne.symm hrne), chainAt_extend_self]
  · intro y
    rw [chainAppendAt, chainAt_set_ne _ _ _ (Ne.symm hsne), chainAt_extend_self]
  · intro chains q hq
    have hqne : chains.length ≠ q := Ne.symm (Nat.ne_of_lt hq)
    refine ⟨chainAt_extend_self chains _, ?_, ?_⟩
    · intro x
      simp only [chainCloneAt, chainAppendAt]
      rw [chainAt_set_ne _ _ _ hqne, chainAt_extend _ _ _ hq]
    · intro x
      simp only [chainCloneAt, chainAppendAt]
      rw [chainAt_set_ne _ _ _ (Ne.symm hqne), chainAt_extend_self]

/-- C7 witness: in a one-agent store, appending a hook to the derived
agent's cloned request chain (address 1) leaves the original chain
(address 0) unchanged. -/
theorem c7_withclient_independence_witness :
    chainAt (chainAppendAt [[7], [7]] 1 42) 0 = [7] :=
  ((c7_withclient_independence Nat Bool ⟨[⟨[("A", ["1"])]⟩], [[7]], [[true]]⟩
      ⟨5, 9, 0, 0, 0⟩ 3 (by decide) (by decide) (by decide))
    ⟨[⟨[("A", ["1"])]⟩, ⟨[("A", ["1"])]⟩], [[7], [7]], [[true], [true]]⟩
    ⟨3, 9, 1, 1, 1⟩ rfl).2.2.2.2.1 42
